import Mathlib

/-!
Verification of the Employee Attendance Tracker (a Django application) against
its natural-language specification.

The relevant parts of the application are shallowly embedded below:
  * the data model (`attendance/models.py`: `Employee`, `Attendance`, `Leave`,
    plus Django's `User` accounts),
  * the model-level save hook `Attendance.save`,
  * the view functions (`attendance/views.py`: `register_employee`,
    `mark_attendance`, `apply_leave`, `monthly_report`, `terminate_employee`,
    `activate_employee`),
  * the admin bulk actions (`attendance/admin.py`: `LeaveAdmin.approve_leaves`,
    `LeaveAdmin.reject_leaves`).

Timestamps are modelled as whole seconds since the epoch (`Int`); calendar
dates as day numbers (`Int`, days since 1970-01-01).  The database is a record
of four tables, each a list of rows; Django's `transaction.atomic` is modelled
by the `atomic` combinator that discards all intermediate state on error.
-/

namespace AttendanceTracker

/-- `settings.py` sets `TIME_ZONE = "Asia/Kolkata"` (UTC+05:30); the offset in
seconds applied by `timezone.localtime`. -/
def tzOffsetSeconds : Int := 19800

/-- Day number (days since 1970-01-01) of the local calendar date of a
timestamp, as produced by `timezone.localtime(timestamp).date()` in
`mark_attendance` (views.py line 91). -/
def localDate (t : Int) : Int := (t + tzOffsetSeconds).fdiv 86400

/-- A Django `auth.User` row (the Account of the spec). -/
structure User where
  id : Nat
  username : String
  password : String
  first_name : String
  last_name : String
  is_staff : Bool
  is_superuser : Bool
  is_active : Bool
deriving Repr, DecidableEq

/-- `Employee` (models.py lines 16-30): one-to-one with a `User`. -/
structure Employee where
  id : Nat
  userId : Nat
  employee_id : String
  department : String
  designation : String
  date_joined : Int
deriving Repr, DecidableEq

/-- `Attendance` (models.py lines 33-56): at most one row per
(employee, date), with optional clock-in/clock-out timestamps and the stored
derived field `worked_seconds`. -/
structure Attendance where
  employee : Nat
  date : Int
  clock_in : Option Int
  clock_out : Option Int
  worked_seconds : Nat
deriving Repr, DecidableEq

/-- `Leave.LEAVE_STATUS` (models.py lines 60-64). -/
inductive LeaveStatus
  | PENDING
  | APPROVED
  | REJECTED
deriving Repr, DecidableEq

/-- `Leave` (models.py lines 59-72). -/
structure Leave where
  id : Nat
  employee : Nat
  start_date : Int
  end_date : Int
  reason : String
  status : LeaveStatus
  applied_at : Int
  approved_by : Option Nat
  approved_at : Option Int
deriving Repr, DecidableEq

/-- The database: the four tables the application reads and writes. -/
structure DB where
  users : List User
  employees : List Employee
  attendances : List Attendance
  leaves : List Leave
deriving Repr, DecidableEq

/-! ## `Attendance.save` (models.py lines 51-56)

```python
def save(self, *args, **kwargs):
    if self.clock_in and self.clock_out:
        delta = self.clock_out - self.clock_in
        self.worked_seconds = max(0, int(delta.total_seconds()))
    super().save(*args, **kwargs)
```
-/

/-- The `worked_seconds` value after `Attendance.save`: recomputed as
`max(0, clock_out - clock_in)` when both timestamps are present, otherwise
left as it was. -/
def computeWorkedSeconds (clock_in clock_out : Option Int) (prev : Nat) : Nat :=
  match clock_in, clock_out with
  | some ci, some co => (max 0 (co - ci)).toNat
  | _, _ => prev

/-- The row as persisted by `Attendance.save`. -/
def Attendance.saveRecord (a : Attendance) : Attendance :=
  { a with worked_seconds := computeWorkedSeconds a.clock_in a.clock_out a.worked_seconds }

/-! ## Leave admin bulk actions (admin.py lines 103-111)

```python
def approve_leaves(self, request, queryset):
    queryset.update(status="APPROVED", approved_at=timezone.now(), approved_by=request.user)

def reject_leaves(self, request, queryset):
    queryset.update(status="REJECTED", approved_at=timezone.now(), approved_by=request.user)
```

The admin queryset is a selection of leave ids; the `update` unconditionally
overwrites `status`, `approved_at` and `approved_by` on every selected row.
-/

/-- One admin bulk action: approve or reject a selection of leave ids, acting
as administrator `admin` at time `now`. -/
inductive LeaveStep
  | approve (ids : List Nat) (admin : Nat) (now : Int)
  | reject (ids : List Nat) (admin : Nat) (now : Int)
deriving Repr, DecidableEq

/-- `LeaveAdmin.approve_leaves` on the queryset of leaves whose id is in
`ids`. -/
def approve_leaves (db : DB) (ids : List Nat) (admin : Nat) (now : Int) : DB :=
  { db with
    leaves := db.leaves.map fun l =>
      if ids.contains l.id then
        { l with status := .APPROVED, approved_at := some now, approved_by := some admin }
      else l }

/-- `LeaveAdmin.reject_leaves` on the queryset of leaves whose id is in
`ids`. -/
def reject_leaves (db : DB) (ids : List Nat) (admin : Nat) (now : Int) : DB :=
  { db with
    leaves := db.leaves.map fun l =>
      if ids.contains l.id then
        { l with status := .REJECTED, approved_at := some now, approved_by := some admin }
      else l }

/-- Run one admin bulk action. -/
def runLeaveStep (db : DB) (s : LeaveStep) : DB :=
  match s with
  | .approve ids admin now => approve_leaves db ids admin now
  | .reject ids admin now => reject_leaves db ids admin now

/-- Run a sequence of admin bulk actions. -/
def runLeaveSteps (db : DB) (ss : List LeaveStep) : DB :=
  ss.foldl runLeaveStep db

/-- Look up a leave row by primary key. -/
def findLeave (db : DB) (lid : Nat) : Option Leave :=
  db.leaves.find? (fun l => l.id == lid)

/-! ## `mark_attendance` (views.py lines 72-107)

```python
emp = Employee.objects.select_related("user").get(employee_id=employee_id)  # 404 if absent
date = timezone.localtime(timestamp).date()
attendance, created = Attendance.objects.get_or_create(employee=emp, date=date)
if action == "IN":
    attendance.clock_in = timestamp
else:  # OUT
    attendance.clock_out = timestamp
attendance.save()
```
-/

/-- The validated `action` field of `AttendanceMarkForm` (forms.py line 18). -/
inductive MarkAction
  | IN
  | OUT
deriving Repr, DecidableEq

/-- `Attendance.objects.get(employee=emp, date=d)`: first row with the given
key. -/
def findAtt (l : List Attendance) (emp : Nat) (d : Int) : Option Attendance :=
  l.find? (fun a => a.employee == emp && a.date == d)

/-- Persisting a row keyed by `(employee, date)`: replace the existing row
with that key, or insert the row if none exists (the net effect on the table
of `get_or_create` followed by `save` within one request). -/
def saveAttendance (l : List Attendance) (a : Attendance) : List Attendance :=
  if l.any (fun x => x.employee == a.employee && x.date == a.date) then
    l.map (fun x => if x.employee == a.employee && x.date == a.date then a else x)
  else
    l ++ [a]

/-- The row written by one `mark_attendance` call for employee `emp` at
timestamp `timestamp`: the result of `get_or_create` for
`(emp, local date)`, with `clock_in` (on `IN`) or `clock_out` (on `OUT`)
set to the timestamp, then run through `Attendance.save`. -/
def markedRecord (db : DB) (emp : Employee) (action : MarkAction)
    (timestamp : Int) : Attendance :=
  let date := localDate timestamp
  let att :=
    match findAtt db.attendances emp.id date with
    | some a => a
    | none =>
      { employee := emp.id, date := date, clock_in := none, clock_out := none,
        worked_seconds := 0 }
  let att :=
    match action with
    | .IN => { att with clock_in := some timestamp }
    | .OUT => { att with clock_out := some timestamp }
  att.saveRecord

/-- `mark_attendance` (views.py lines 72-107).  Returns the updated database
and `true` on success, or the unchanged database and `false` when the
employee id is unknown (the 404 branch). -/
def mark_attendance (db : DB) (employee_id : String) (action : MarkAction)
    (timestamp : Int) : DB × Bool :=
  match db.employees.find? (fun e => e.employee_id == employee_id) with
  | none => (db, false)
  | some emp =>
    ({ db with attendances :=
        saveAttendance db.attendances (markedRecord db emp action timestamp) },
     true)

/-! ## `register_employee` (views.py lines 26-69)

```python
with transaction.atomic():
    user = User.objects.create_user(username=..., password=..., first_name=..., last_name=...)
    if data.get("is_admin", False):
        user.is_staff = True
        user.is_superuser = True
        user.save()
    emp = Employee.objects.create(user=user, employee_id=..., department=..., designation=...)
```

Any exception inside the `atomic` block (duplicate `username` on the `User`
table, duplicate `employee_id` on the `Employee` table) rolls the whole block
back.
-/

/-- The cleaned data of `EmployeeRegisterForm` (forms.py lines 5-13).  Note it
carries no staff credential of the caller: the view is not gated. -/
structure RegInput where
  username : String
  first_name : String
  last_name : String
  password : String
  employee_id : String
  department : String
  designation : String
  is_admin : Bool
deriving Repr, DecidableEq

/-- A fresh primary key for the `users` table. -/
def nextUserId (db : DB) : Nat :=
  (db.users.map User.id).foldl max 0 + 1

/-- A fresh primary key for the `employees` table. -/
def nextEmployeeId (db : DB) : Nat :=
  (db.employees.map Employee.id).foldl max 0 + 1

/-- A fresh primary key for the `leaves` table. -/
def nextLeaveId (db : DB) : Nat :=
  (db.leaves.map Leave.id).foldl max 0 + 1

/-- `User.objects.create_user`: fails on a duplicate `username` (unique
column), otherwise inserts a non-staff, non-superuser, active account and
returns its primary key. -/
def create_user (db : DB) (username password first_name last_name : String) :
    Except String (DB × Nat) :=
  if db.users.any (fun u => u.username == username) then
    .error "duplicate username"
  else
    let uid := nextUserId db
    .ok ({ db with
            users := db.users ++
              [{ id := uid, username := username, password := password,
                 first_name := first_name, last_name := last_name,
                 is_staff := false, is_superuser := false, is_active := true }] },
         uid)

/-- The `user.is_staff = True; user.is_superuser = True; user.save()` branch
taken when `is_admin` is checked. -/
def promoteUser (db : DB) (uid : Nat) : DB :=
  { db with
    users := db.users.map fun u =>
      if u.id == uid then { u with is_staff := true, is_superuser := true } else u }

/-- `Employee.objects.create`: fails on a duplicate `employee_id` (unique
column), otherwise inserts the row. -/
def createEmployee (db : DB) (uid : Nat) (employee_id department designation : String)
    (today : Int) : Except String DB :=
  if db.employees.any (fun e => e.employee_id == employee_id) then
    .error "duplicate employee_id"
  else
    .ok { db with
          employees := db.employees ++
            [{ id := nextEmployeeId db, userId := uid, employee_id := employee_id,
               department := department, designation := designation,
               date_joined := today }] }

/-- The body of the `transaction.atomic()` block in `register_employee`. -/
def registerBody (db : DB) (inp : RegInput) (today : Int) : Except String DB := do
  let (db1, uid) ← create_user db inp.username inp.password inp.first_name inp.last_name
  let db2 := if inp.is_admin then promoteUser db1 uid else db1
  createEmployee db2 uid inp.employee_id inp.department inp.designation today

/-- `transaction.atomic`: commit the body's final state on success, discard
every intermediate write on failure. -/
def atomic (db : DB) (body : Except String DB) : DB × Bool :=
  match body with
  | .ok db2 => (db2, true)
  | .error _ => (db, false)

/-- `register_employee` (views.py lines 26-69): the POST branch with valid
form data.  Returns the resulting database and whether registration
succeeded. -/
def register_employee (db : DB) (inp : RegInput) (today : Int) : DB × Bool :=
  atomic db (registerBody db inp today)

/-! ## `apply_leave` (views.py lines 118-133)

```python
leave = form.save(commit=False)          # start_date, end_date, reason only
leave.employee = request.user.employee   # bound to the requesting viewer
leave.save()
```

`Leave.status` defaults to `"PENDING"`, `applied_at` is `auto_now_add`,
`approved_by` and `approved_at` default to null (models.py lines 65-72).
-/

/-- The fields of `LeaveApplyForm` (forms.py lines 23-31): only
`start_date`, `end_date` and `reason` — the form cannot designate an
employee. -/
structure LeaveForm where
  start_date : Int
  end_date : Int
  reason : String
deriving Repr, DecidableEq

/-- `request.user.employee`: the `Employee` row one-to-one with the viewer's
account. -/
def employeeOfUser (db : DB) (viewer : User) : Option Employee :=
  db.employees.find? (fun e => e.userId == viewer.id)

/-- `apply_leave` (views.py lines 118-133), POST branch with valid form data
at time `now`.  Errors when the viewer's account has no linked `Employee`
row. -/
def apply_leave (db : DB) (viewer : User) (form : LeaveForm) (now : Int) :
    Except Unit DB :=
  match employeeOfUser db viewer with
  | none => .error ()
  | some emp =>
    .ok { db with
          leaves := db.leaves ++
            [{ id := nextLeaveId db, employee := emp.id,
               start_date := form.start_date, end_date := form.end_date,
               reason := form.reason, status := .PENDING, applied_at := now,
               approved_by := none, approved_at := none }] }

/-! ## `terminate_employee` / `activate_employee` (views.py lines 300-323)

```python
emp = Employee.objects.get(employee_id=employee_id)
emp.user.is_active = False   # True in activate_employee
emp.user.save()
```
-/

/-- `terminate_employee` (views.py lines 300-310): clears the linked
account's `is_active` flag; unknown employee ids leave the database
untouched. -/
def terminate_employee (db : DB) (employee_id : String) : DB :=
  match db.employees.find? (fun e => e.employee_id == employee_id) with
  | none => db
  | some emp =>
    { db with
      users := db.users.map fun u =>
        if u.id == emp.userId then { u with is_active := false } else u }

/-- `activate_employee` (views.py lines 313-323): sets the linked account's
`is_active` flag. -/
def activate_employee (db : DB) (employee_id : String) : DB :=
  match db.employees.find? (fun e => e.employee_id == employee_id) with
  | none => db
  | some emp =>
    { db with
      users := db.users.map fun u =>
        if u.id == emp.userId then { u with is_active := true } else u }

/-! ## `monthly_report` (views.py lines 149-297)

The view computes the month's date range with `calendar.monthrange`, filters
the attendance table to that range, narrows non-staff viewers to their own
employee's rows, applies the department filter only for staff
(`if department and is_staff:`), aggregates `worked_seconds` sums and
present-day counts grouped by `(employee_id, first_name, department)` ordered
by `employee_id`, and derives the summary statistics.
-/

/-- Gregorian leap-year test (as used by `calendar.monthrange`). -/
def isLeap (y : Nat) : Bool :=
  (y % 4 == 0 && y % 100 != 0) || y % 400 == 0

/-- `calendar.monthrange(y, m)[1]`: the number of days in the month. -/
def monthLength (y m : Nat) : Nat :=
  if m == 2 then (if isLeap y then 29 else 28)
  else if m == 4 || m == 6 || m == 9 || m == 11 then 30
  else 31

/-- Day number (days since 1970-01-01) of the Gregorian date `y-m-d`. -/
def daysFromCivil (y m d : Int) : Int :=
  let y := y - (if m ≤ 2 then 1 else 0)
  let era := y.fdiv 400
  let yoe := y - era * 400
  let mp := (m + 9) % 12
  let doy := (153 * mp + 2).fdiv 5 + d - 1
  let doe := yoe * 365 + yoe.fdiv 4 - yoe.fdiv 100 + doy
  era * 146097 + doe - 719468

/-- The `employee__department` join used by the department filter. -/
def employeeDepartment (db : DB) (a : Attendance) : String :=
  ((db.employees.find? (fun e => e.id == a.employee)).map Employee.department).getD ""

/-- The attendance queryset of `monthly_report` after the date-range filter,
the mandatory non-staff narrowing (views.py lines 171-177) and the
staff-only department filter (views.py lines 180-181).  Errors in the
`Employee.DoesNotExist` redirect branch. -/
def visibleAttendance (db : DB) (viewer : User) (year month : Nat)
    (department : String) : Except Unit (List Attendance) :=
  let start_date := daysFromCivil (year : Int) (month : Int) 1
  let end_date := daysFromCivil (year : Int) (month : Int) (monthLength year month : Int)
  let att0 := db.attendances.filter fun a =>
    decide (start_date ≤ a.date) && decide (a.date ≤ end_date)
  let narrowed : Except Unit (List Attendance) :=
    if viewer.is_staff then .ok att0
    else
      match employeeOfUser db viewer with
      | none => .error ()
      | some emp => .ok (att0.filter (fun a => a.employee == emp.id))
  match narrowed with
  | .error e => .error e
  | .ok att1 =>
    .ok (if department != "" && viewer.is_staff then
           att1.filter (fun a => employeeDepartment db a == department)
         else att1)

/-- The grouping key of the `values(...)` clause (views.py lines 185-189):
`employee__employee_id`, `employee__user__first_name`,
`employee__department`. -/
structure AggKey where
  emp_id : String
  name : String
  department : String
deriving Repr, DecidableEq

/-- `employee__user__first_name` for an attendance row. -/
def employeeFirstName (db : DB) (a : Attendance) : String :=
  match db.employees.find? (fun e => e.id == a.employee) with
  | none => ""
  | some emp => ((db.users.find? (fun u => u.id == emp.userId)).map User.first_name).getD ""

/-- The grouping key of one attendance row. -/
def recordKey (db : DB) (a : Attendance) : AggKey :=
  { emp_id := ((db.employees.find? (fun e => e.id == a.employee)).map
      Employee.employee_id).getD "",
    name := employeeFirstName db a,
    department := employeeDepartment db a }

/-- The distinct grouping keys of a queryset, in order of first occurrence
(SQL `GROUP BY`). -/
def distinctKeys (l : List AggKey) : List AggKey :=
  l.foldl (fun acc k => if acc.contains k then acc else acc ++ [k]) []

/-- One row of the report context (views.py lines 212-219). -/
structure ReportRow where
  employee_id : String
  name : String
  department : String
  days_present : Nat
  total_time : String
  total_seconds : Nat
deriving Repr, DecidableEq

/-- The `"{h}h {m}m"` formatting of views.py lines 207-208 and 217. -/
def formatHours (total_seconds : Nat) : String :=
  toString (total_seconds / 3600) ++ "h " ++ toString (total_seconds % 3600 / 60) ++ "m"

/-- The report row aggregated for one grouping key over a queryset:
`total_seconds = Sum("worked_seconds")` and `days_present` counts rows with a
non-null `clock_in` (views.py lines 190-198, 205-219). -/
def aggRow (db : DB) (recs : List Attendance) (k : AggKey) : ReportRow :=
  let group := recs.filter (fun a => recordKey db a == k)
  let total_seconds := (group.map Attendance.worked_seconds).sum
  let days_present := (group.filter (fun a => a.clock_in.isSome)).length
  { employee_id := k.emp_id, name := k.name, department := k.department,
    days_present := days_present, total_time := formatHours total_seconds,
    total_seconds := total_seconds }

/-- The aggregation of views.py lines 185-219: grouped rows ordered by
`emp_id` ascending (`.order_by("emp_id")`). -/
def monthlyAgg (db : DB) (recs : List Attendance) : List ReportRow :=
  let keys := (distinctKeys (recs.map (recordKey db))).mergeSort
    (fun k1 k2 => decide (k1.emp_id ≤ k2.emp_id))
  keys.map (aggRow db recs)

/-- The template context assembled by `monthly_report`
(views.py lines 200-223 and 284-295); `average_attendance` is kept as an
exact rational rather than the `.1f`-formatted string. -/
structure ReportContext where
  rows : List ReportRow
  total_employees : Nat
  total_present_days : Nat
  average_attendance : ℚ
  working_days : Nat
deriving Repr, DecidableEq

/-- `monthly_report` (views.py lines 149-297): the aggregation pipeline and
summary statistics; errors in the `Employee.DoesNotExist` redirect branch for
unlinked non-staff viewers. -/
def monthly_report (db : DB) (viewer : User) (year month : Nat)
    (department : String) : Except Unit ReportContext :=
  match visibleAttendance db viewer year month department with
  | .error e => .error e
  | .ok att_qs =>
    let working_days := monthLength year month
    let rows := monthlyAgg db att_qs
    let total_employees := rows.length
    let total_present_days := (rows.map ReportRow.days_present).sum
    let average_attendance : ℚ :=
      if total_employees > 0 then
        (total_present_days : ℚ) / ((total_employees : ℚ) * (working_days : ℚ)) * 100
      else 0
    .ok { rows := rows, total_employees := total_employees,
          total_present_days := total_present_days,
          average_attendance := average_attendance, working_days := working_days }

/-! ## Concrete fixtures

Small databases used to evaluate the theorems on closed inputs. -/

/-- A non-staff account. -/
def aliceW : User :=
  { id := 1, username := "alice", password := "pw", first_name := "Alice",
    last_name := "A", is_staff := false, is_superuser := false, is_active := true }

/-- A staff account. -/
def bobW : User :=
  { id := 2, username := "bob", password := "pw", first_name := "Bob",
    last_name := "B", is_staff := true, is_superuser := false, is_active := true }

/-- The employee row of `aliceW`, in department IT. -/
def empAliceW : Employee :=
  { id := 1, userId := 1, employee_id := "EMP1", department := "IT",
    designation := "Dev", date_joined := 0 }

/-- The employee row of `bobW`, in department HR. -/
def empBobW : Employee :=
  { id := 2, userId := 2, employee_id := "EMP2", department := "HR",
    designation := "Mgr", date_joined := 0 }

/-- Two employees, no attendance, no leaves. -/
def dbW : DB :=
  { users := [aliceW, bobW], employees := [empAliceW, empBobW],
    attendances := [], leaves := [] }

/-- An already-approved leave request. -/
def approvedLeaveW : Leave :=
  { id := 1, employee := 1, start_date := 19783, end_date := 19784,
    reason := "trip", status := .APPROVED, applied_at := 100,
    approved_by := some 2, approved_at := some 200 }

/-- A database holding one approved leave. -/
def dbLeaveW : DB :=
  { users := [aliceW, bobW], employees := [empAliceW, empBobW],
    attendances := [], leaves := [approvedLeaveW] }

/-- Alice's attendance on 2024-03-01 (day 19783): clocked in 09:00 IST and
out 17:30 IST. -/
def attMarchW : Attendance :=
  { employee := 1, date := 19783, clock_in := some (19783 * 86400 - 19800 + 9 * 3600),
    clock_out := some (19783 * 86400 - 19800 + 17 * 3600 + 1800),
    worked_seconds := 30600 }

/-- `dbW` with Alice's March attendance row. -/
def dbMarchW : DB := { dbW with attendances := [attMarchW] }

/-- Bob's attendance on 2024-03-02 (day 19784): clocked in, never out. -/
def attMarch2W : Attendance :=
  { employee := 2, date := 19784, clock_in := some (19784 * 86400 - 19800 + 9 * 3600),
    clock_out := none, worked_seconds := 0 }

/-- `dbW` with both March attendance rows, stored out of `emp_id` order. -/
def dbMarch2W : DB := { dbW with attendances := [attMarch2W, attMarchW] }

/-- The report context of an empty month: no rows, zero employees, average
0%. -/
def ctxEmptyW : ReportContext :=
  { rows := [], total_employees := 0, total_present_days := 0,
    average_attendance := 0, working_days := 31 }

/-- The grouping key contributed by any attendance row of the employee with
primary key `empId` (the key depends on the row only through its employee
foreign key). -/
def empAggKey (db : DB) (empId : Nat) : AggKey :=
  recordKey db { employee := empId, date := 0, clock_in := none,
                 clock_out := none, worked_seconds := 0 }

/-- Registration input reusing the taken business identifier `EMP1`. -/
def regDupW : RegInput :=
  { username := "carol", first_name := "Carol", last_name := "C",
    password := "pw", employee_id := "EMP1", department := "FIN",
    designation := "Analyst", is_admin := false }

/-- Registration input with a fresh identifier and the admin box checked. -/
def regAdminW : RegInput :=
  { username := "dave", first_name := "Dave", last_name := "D",
    password := "pw", employee_id := "EMP3", department := "FIN",
    designation := "Analyst", is_admin := true }

/-- `dbW` after Alice's leave application at time 100. -/
def dbAfterLeaveW : DB :=
  { dbW with
    leaves := dbW.leaves ++
      [{ id := nextLeaveId dbW, employee := empAliceW.id, start_date := 19783,
         end_date := 19784, reason := "trip", status := .PENDING,
         applied_at := 100, approved_by := none, approved_at := none }] }

/-- Agreement of two account rows on every column except `is_active`. -/
def sameExceptActive (u v : User) : Prop :=
  u.id = v.id ∧ u.username = v.username ∧ u.password = v.password ∧
  u.first_name = v.first_name ∧ u.last_name = v.last_name ∧
  u.is_staff = v.is_staff ∧ u.is_superuser = v.is_superuser

/-- Number of attendance rows with key `(emp, d)`. -/
def countKey (l : List Attendance) (emp : Nat) (d : Int) : Nat :=
  (l.filter (fun a => a.employee == emp && a.date == d)).length

/-- The `unique_together ("employee", "date")` constraint of
`Attendance.Meta` (models.py line 42): at most one row per key. -/
def uniqueAttKeys (l : List Attendance) : Prop :=
  ∀ emp d, countKey l emp d ≤ 1

/-! ## Helper lemmas -/

/-- `find?` commutes with a map that does not change the predicate's
verdict. -/
theorem find?_map_pred_eq {α : Type} (f : α → α) (p : α → Bool)
    (hp : ∀ x, p (f x) = p x) (l : List α) :
    (l.map f).find? p = (l.find? p).map f := by
  induction l with
  | nil => rfl
  | cons x xs ih =>
    by_cases hx : p x = true
    · rw [List.map_cons, List.find?_cons_of_pos _ (by rw [hp]; exact hx),
        List.find?_cons_of_pos _ hx]
      rfl
    · rw [List.map_cons, List.find?_cons_of_neg _ (by rw [hp]; exact hx),
        List.find?_cons_of_neg _ hx, ih]

/-- `Forall₂` between a list and its image under `f`, given `R x (f x)`
pointwise. -/
theorem forall2_map_self {α : Type} (R : α → α → Prop) (f : α → α)
    (hf : ∀ x, R x (f x)) : ∀ l : List α, List.Forall₂ R l (l.map f)
  | [] => List.Forall₂.nil
  | x :: xs => List.Forall₂.cons (hf x) (forall2_map_self R f hf xs)

/-- `Forall₂` of a reflexive relation on identical lists. -/
theorem forall2_self {α : Type} (R : α → α → Prop) (h : ∀ x, R x x) :
    ∀ l : List α, List.Forall₂ R l l
  | [] => List.Forall₂.nil
  | x :: xs => List.Forall₂.cons (h x) (forall2_self R h xs)

/-! ## C2: worked seconds -/

/-- C2: for every attendance record saved with both `clock_in` and
`clock_out` present, `worked_seconds` equals the clock-out minus clock-in
delta in whole seconds when `clock_out ≥ clock_in`, and `0` when
`clock_out < clock_in` (clamped, never negative). -/
theorem worked_seconds_spec (a : Attendance) (ci co : Int)
    (hin : a.clock_in = some ci) (hout : a.clock_out = some co) :
    (ci ≤ co → (a.saveRecord.worked_seconds : Int) = co - ci) ∧
    (co < ci → a.saveRecord.worked_seconds = 0) := by
  unfold Attendance.saveRecord computeWorkedSeconds
  rw [hin, hout]
  constructor
  · intro h
    simp only
    omega
  · intro h
    simp only
    omega

/-- Witness for C2: clock-in 09:00 IST and clock-out 17:30 IST on 2024-03-01
yield `worked_seconds = 30600`. -/
theorem worked_seconds_spec_witness :
    ((Attendance.saveRecord
      { employee := 1, date := 19783,
        clock_in := some (19783 * 86400 - 19800 + 9 * 3600),
        clock_out := some (19783 * 86400 - 19800 + 17 * 3600 + 1800),
        worked_seconds := 0 }).worked_seconds : Int) =
      (19783 * 86400 - 19800 + 17 * 3600 + 1800) - (19783 * 86400 - 19800 + 9 * 3600) ∧
    (Attendance.saveRecord
      { employee := 1, date := 19783,
        clock_in := some (19783 * 86400 - 19800 + 9 * 3600),
        clock_out := some (19783 * 86400 - 19800 + 17 * 3600 + 1800),
        worked_seconds := 0 }).worked_seconds = 30600 := by
  refine ⟨(worked_seconds_spec _ _ _ rfl rfl).1 (by norm_num), by decide⟩

/-! ## C1: leave status transitions -/

/-- C1 counterexample: an `APPROVED` leave is not terminal — a subsequent
`reject_leaves` call on the same id overwrites the status to `REJECTED`, so
the transition out of the terminal state is neither a no-op nor rejected. -/
theorem leave_terminal_not_sticky :
    findLeave dbLeaveW 1 = some approvedLeaveW ∧
    approvedLeaveW.status = LeaveStatus.APPROVED ∧
    (findLeave (reject_leaves dbLeaveW [1] 2 300) 1).map Leave.status =
      some LeaveStatus.REJECTED := by
  decide

/-- C1 (amended): approve/reject bulk actions unconditionally overwrite the
status of every selected leave, so once a leave is `APPROVED` or `REJECTED`
no sequence of further approve/reject steps ever takes it back to `PENDING`
— but a terminal status can be overwritten by the opposite action. -/
theorem leave_never_reverts_to_pending (db : DB) (ss : List LeaveStep)
    (lid : Nat) (l : Leave) (hfind : findLeave db lid = some l)
    (hterm : l.status ≠ LeaveStatus.PENDING) :
    ∀ l', findLeave (runLeaveSteps db ss) lid = some l' →
      l'.status ≠ LeaveStatus.PENDING := by
  induction ss generalizing db l with
  | nil =>
    intro l' h
    rw [runLeaveSteps, List.foldl_nil] at h
    rw [hfind] at h
    cases h
    exact hterm
  | cons s ss ih =>
    intro l' h
    rw [runLeaveSteps, List.foldl_cons] at h
    cases s with
    | approve ids admin now =>
      refine ih (approve_leaves db ids admin now)
        (if ids.contains l.id then
          { l with status := .APPROVED, approved_at := some now,
                   approved_by := some admin }
         else l) ?_ ?_ l' h
      · unfold findLeave approve_leaves at *
        rw [find?_map_pred_eq _ _ (fun x => by by_cases hx : x.id ∈ ids <;>
          simp [hx]) db.leaves, hfind]
        by_cases hc : l.id ∈ ids <;> simp [hc]
      · by_cases hc : l.id ∈ ids <;> simp [hc, hterm]
    | reject ids admin now =>
      refine ih (reject_leaves db ids admin now)
        (if ids.contains l.id then
          { l with status := .REJECTED, approved_at := some now,
                   approved_by := some admin }
         else l) ?_ ?_ l' h
      · unfold findLeave reject_leaves at *
        rw [find?_map_pred_eq _ _ (fun x => by by_cases hx : x.id ∈ ids <;>
          simp [hx]) db.leaves, hfind]
        by_cases hc : l.id ∈ ids <;> simp [hc]
      · by_cases hc : l.id ∈ ids <;> simp [hc, hterm]

/-- Witness for C1 (amended): the approved leave of `dbLeaveW`, after a
reject step followed by an approve step, still has a non-`PENDING` status. -/
theorem leave_never_reverts_to_pending_witness :
    ∃ l', findLeave (runLeaveSteps dbLeaveW
        [LeaveStep.reject [1] 2 300, LeaveStep.approve [1] 2 400]) 1 = some l' ∧
      l'.status ≠ LeaveStatus.PENDING := by
  have h := leave_never_reverts_to_pending dbLeaveW
    [LeaveStep.reject [1] 2 300, LeaveStep.approve [1] 2 400] 1 approvedLeaveW
    (by decide) (by decide)
  exact ⟨_, rfl, h _ rfl⟩

/-- Reflexivity of `sameExceptActive`. -/
theorem sameExceptActive_refl (u : User) : sameExceptActive u u :=
  ⟨rfl, rfl, rfl, rfl, rfl, rfl, rfl⟩

/-! ## C4 and C9: registration -/

/-- Shared helper: a registration whose `employee_id` is already taken fails
and leaves the database untouched, whatever else the input holds. -/
theorem register_dup_employee_rolls_back (db : DB) (inp : RegInput) (today : Int)
    (hdup : db.employees.any (fun e => e.employee_id == inp.employee_id) = true) :
    register_employee db inp today = (db, false) := by
  unfold register_employee registerBody atomic create_user createEmployee
  by_cases h1 : db.users.any (fun u => u.username == inp.username) = true
  · simp [h1, Bind.bind, Except.bind]
  · simp only [List.any_eq_true, beq_iff_eq] at hdup
    by_cases h2 : inp.is_admin = true <;>
      simp [eq_false_of_ne_true h1, h2, promoteUser, hdup, Bind.bind, Except.bind]

/-- C4: registration creates the Account and its linked Employee atomically —
when Employee creation fails on a duplicate `employee_id` after the Account
row was created, the whole transaction rolls back and no Account row
persists. -/
theorem register_duplicate_employee_id_atomic (db : DB) (inp : RegInput)
    (today : Int)
    (hdup : db.employees.any (fun e => e.employee_id == inp.employee_id) = true) :
    (register_employee db inp today).2 = false ∧
    (register_employee db inp today).1.users = db.users ∧
    (register_employee db inp today).1 = db := by
  rw [register_dup_employee_rolls_back db inp today hdup]
  exact ⟨rfl, rfl, rfl⟩

/-- Witness for C4: registering `regDupW` (its `employee_id` EMP1 is taken in
`dbW`) leaves `dbW` unchanged. -/
theorem register_duplicate_employee_id_atomic_witness :
    (register_employee dbW regDupW 5).2 = false ∧
    (register_employee dbW regDupW 5).1.users = dbW.users ∧
    (register_employee dbW regDupW 5).1 = dbW :=
  register_duplicate_employee_id_atomic dbW regDupW 5 (by decide)

/-- C9: the public registration operation (it takes no staff credential of
the caller) creates, for any input with `is_admin` set, an account with both
the staff flag and the superuser flag set. -/
theorem register_admin_grants_staff_superuser (db : DB) (inp : RegInput)
    (today : Int) (hadmin : inp.is_admin = true)
    (hok : (register_employee db inp today).2 = true) :
    ∃ u ∈ (register_employee db inp today).1.users,
      u.username = inp.username ∧ u.is_staff = true ∧ u.is_superuser = true := by
  by_cases h1 : db.users.any (fun u => u.username == inp.username) = true
  · exfalso
    have hfail : register_employee db inp today = (db, false) := by
      unfold register_employee registerBody atomic create_user
      simp [h1, Bind.bind, Except.bind]
    rw [hfail] at hok
    exact Bool.false_ne_true hok
  · by_cases h2 : db.employees.any (fun e => e.employee_id == inp.employee_id) = true
    · exfalso
      rw [register_dup_employee_rolls_back db inp today h2] at hok
      exact Bool.false_ne_true hok
    · unfold register_employee registerBody atomic create_user createEmployee
        promoteUser
      rw [eq_false_of_ne_true h1, hadmin]
      simp only [Bool.false_eq_true, if_false, if_true, Bind.bind, Except.bind]
      rw [eq_false_of_ne_true h2]
      simp only [Bool.false_eq_true, if_false]
      refine ⟨{ id := nextUserId db, username := inp.username,
                password := inp.password, first_name := inp.first_name,
                last_name := inp.last_name, is_staff := true,
                is_superuser := true, is_active := true }, ?_, rfl, rfl, rfl⟩
      refine List.mem_map.mpr ⟨{ id := nextUserId db, username := inp.username,
                                 password := inp.password,
                                 first_name := inp.first_name,
                                 last_name := inp.last_name, is_staff := false,
                                 is_superuser := false, is_active := true },
        ?_, by simp⟩
      exact List.mem_append_right _ (List.mem_singleton.mpr rfl)

/-- Witness for C9: registering `regAdminW` in `dbW` succeeds and yields an
account named "dave" that is both staff and superuser. -/
theorem register_admin_grants_staff_superuser_witness :
    ∃ u ∈ (register_employee dbW regAdminW 5).1.users,
      u.username = regAdminW.username ∧ u.is_staff = true ∧
      u.is_superuser = true :=
  register_admin_grants_staff_superuser dbW regAdminW 5 (by decide) (by decide)

/-! ## C10: leave application -/

/-- C10: a leave created through `apply_leave` is bound to the requesting
viewer's own Employee (the form cannot designate another employee) and the
created record is `PENDING` with approver and approval timestamp unset. -/
theorem apply_leave_binds_viewer (db : DB) (viewer : User) (form : LeaveForm)
    (now : Int) (db2 : DB)
    (hok : apply_leave db viewer form now = Except.ok db2) :
    ∃ emp, employeeOfUser db viewer = some emp ∧
      db2.leaves = db.leaves ++
        [{ id := nextLeaveId db, employee := emp.id,
           start_date := form.start_date, end_date := form.end_date,
           reason := form.reason, status := .PENDING, applied_at := now,
           approved_by := none, approved_at := none }] := by
  unfold apply_leave at hok
  cases hfind : employeeOfUser db viewer with
  | none =>
    rw [hfind] at hok
    cases hok
  | some emp =>
    rw [hfind] at hok
    injection hok with h
    subst h
    exact ⟨emp, rfl, rfl⟩

/-- Witness for C10: Alice's leave application in `dbW` produces exactly the
pending, unapproved record bound to her own employee row. -/
theorem apply_leave_binds_viewer_witness :
    ∃ emp, employeeOfUser dbW aliceW = some emp ∧
      dbAfterLeaveW.leaves = dbW.leaves ++
        [{ id := nextLeaveId dbW, employee := emp.id, start_date := 19783,
           end_date := 19784, reason := "trip", status := .PENDING,
           applied_at := 100, approved_by := none, approved_at := none }] :=
  apply_leave_binds_viewer dbW aliceW ⟨19783, 19784, "trip"⟩ 100 dbAfterLeaveW
    rfl

/-! ## C7: termination/activation frame -/

/-- C7: terminating or activating an employee only toggles the linked
account's `is_active` flag: the Employee, Attendance and Leave tables are
unchanged, every other account column is unchanged, and no row is deleted. -/
theorem terminate_activate_frame (db : DB) (eid : String) :
    (terminate_employee db eid).employees = db.employees ∧
    (terminate_employee db eid).attendances = db.attendances ∧
    (terminate_employee db eid).leaves = db.leaves ∧
    List.Forall₂ sameExceptActive db.users (terminate_employee db eid).users ∧
    (activate_employee db eid).employees = db.employees ∧
    (activate_employee db eid).attendances = db.attendances ∧
    (activate_employee db eid).leaves = db.leaves ∧
    List.Forall₂ sameExceptActive db.users (activate_employee db eid).users := by
  unfold terminate_employee activate_employee
  cases h : db.employees.find? (fun e => e.employee_id == eid) with
  | none =>
    exact ⟨rfl, rfl, rfl, forall2_self _ sameExceptActive_refl _,
      rfl, rfl, rfl, forall2_self _ sameExceptActive_refl _⟩
  | some emp =>
    refine ⟨rfl, rfl, rfl, forall2_map_self _ _ (fun u => ?_) _,
      rfl, rfl, rfl, forall2_map_self _ _ (fun u => ?_) _⟩
    · by_cases hu : u.id = emp.userId <;>
        simp [sameExceptActive, hu]
    · by_cases hu : u.id = emp.userId <;>
        simp [sameExceptActive, hu]

/-! ## C5: mark-attendance upsert -/

/-- A `find?` hit under an attendance key carries that key. -/
theorem findAtt_key (l : List Attendance) (emp : Nat) (d : Int) (a : Attendance)
    (h : findAtt l emp d = some a) : a.employee = emp ∧ a.date = d := by
  have hp := List.find?_some h
  simp only [Bool.and_eq_true, beq_iff_eq] at hp
  exact hp

/-- Replacing every row matching `p` by a row `a` that itself matches `p`
makes the first `p`-match `a` whenever there was any match. -/
theorem find?_replace_self {p : Attendance → Bool} {a : Attendance}
    (hpa : p a = true) (l : List Attendance) :
    (l.map (fun x => if p x then a else x)).find? p =
      if l.any p then some a else none := by
  induction l with
  | nil => rfl
  | cons x xs ih =>
    by_cases hx : p x = true
    · rw [List.map_cons, if_pos hx, List.find?_cons_of_pos _ hpa,
        List.any_cons, hx, Bool.true_or, if_pos rfl]
    · rw [List.map_cons, if_neg hx, List.find?_cons_of_neg _ hx, ih,
        List.any_cons, eq_false_of_ne_true hx, Bool.false_or]

/-- Appending a matching row to a list with no match makes it the first
match. -/
theorem find?_append_single {p : Attendance → Bool} {a : Attendance}
    (hpa : p a = true) (l : List Attendance) (h : l.any p = false) :
    (l ++ [a]).find? p = some a := by
  induction l with
  | nil => exact List.find?_cons_of_pos _ hpa
  | cons x xs ih =>
    rw [List.any_cons, Bool.or_eq_false_iff] at h
    rw [List.cons_append, List.find?_cons_of_neg _ (by simp [h.1])]
    exact ih h.2

/-- After `saveAttendance l a`, the lookup under `a`'s key returns `a`. -/
theorem findAtt_saveAttendance (l : List Attendance) (a : Attendance) :
    findAtt (saveAttendance l a) a.employee a.date = some a := by
  unfold findAtt saveAttendance
  have hpa : (a.employee == a.employee && a.date == a.date) = true := by simp
  by_cases h : l.any (fun x => x.employee == a.employee && x.date == a.date) = true
  · rw [if_pos h, find?_replace_self hpa, if_pos h]
  · rw [if_neg h, find?_append_single hpa _ (eq_false_of_ne_true h)]

/-- Replacing every `p`-match by a `p`-matching row preserves the number of
`p`-matches. -/
theorem length_filter_replace_self {p : Attendance → Bool} {a : Attendance}
    (hpa : p a = true) (l : List Attendance) :
    ((l.map (fun x => if p x then a else x)).filter p).length =
      (l.filter p).length := by
  induction l with
  | nil => rfl
  | cons x xs ih =>
    by_cases hx : p x = true
    · simp [hx, hpa, ih]
    · simp [hx, ih]

/-- Replacing rows by a row that does not match `q` cannot increase the
number of `q`-matches. -/
theorem length_filter_replace_le {p q : Attendance → Bool} {a : Attendance}
    (hqa : q a = false) (l : List Attendance) :
    ((l.map (fun x => if p x then a else x)).filter q).length ≤
      (l.filter q).length := by
  induction l with
  | nil => exact Nat.le_refl 0
  | cons x xs ih =>
    by_cases hx : p x = true
    · rw [List.map_cons, if_pos hx, List.filter_cons, List.filter_cons, hqa]
      simp only [Bool.false_eq_true, if_false]
      by_cases hqx : q x = true
      · rw [hqx]
        simp only [if_pos rfl, List.length_cons]
        exact Nat.le_succ_of_le ih
      · rw [eq_false_of_ne_true hqx]
        simpa using ih
    · rw [List.map_cons, if_neg hx, List.filter_cons, List.filter_cons]
      by_cases hqx : q x = true
      · rw [hqx]
        simpa using Nat.succ_le_succ ih
      · rw [eq_false_of_ne_true hqx]
        simpa using ih

/-- Saving a row into a table respecting the uniqueness constraint leaves
exactly one row under the saved key. -/
theorem countKey_save_self (l : List Attendance) (a : Attendance)
    (h : countKey l a.employee a.date ≤ 1) :
    countKey (saveAttendance l a) a.employee a.date = 1 := by
  unfold countKey saveAttendance
  have hpa : (a.employee == a.employee && a.date == a.date) = true := by simp
  by_cases hany : l.any (fun x => x.employee == a.employee && x.date == a.date) = true
  · rw [if_pos hany, length_filter_replace_self hpa]
    obtain ⟨x, hmem, hx⟩ := List.any_eq_true.mp hany
    have hmemf : x ∈ l.filter
        (fun x => x.employee == a.employee && x.date == a.date) :=
      List.mem_filter.mpr ⟨hmem, hx⟩
    have hpos := List.length_pos.mpr (List.ne_nil_of_mem hmemf)
    have hle := h
    unfold countKey at hle
    omega
  · rw [if_neg hany, List.filter_append]
    have hzero : (l.filter
        (fun x => x.employee == a.employee && x.date == a.date)).length = 0 := by
      rw [List.length_eq_zero, List.filter_eq_nil_iff]
      intro x hx hpx
      exact hany (List.any_eq_true.mpr ⟨x, hx, hpx⟩)
    rw [List.length_append, hzero]
    simp [hpa]

/-- `saveAttendance` preserves the per-key uniqueness constraint. -/
theorem uniqueAttKeys_save (l : List Attendance) (a : Attendance)
    (h : uniqueAttKeys l) : uniqueAttKeys (saveAttendance l a) := by
  intro emp d
  by_cases hkey : emp = a.employee ∧ d = a.date
  · obtain ⟨rfl, rfl⟩ := hkey
    exact Nat.le_of_eq (countKey_save_self l a (h _ _))
  · have hqa : (a.employee == emp && a.date == d) = false := by
      cases Decidable.not_and_iff_or_not.mp hkey with
      | inl h1 => simp [Ne.symm h1]
      | inr h2 => simp [Ne.symm h2]
    unfold countKey saveAttendance
    by_cases hany : l.any (fun x => x.employee == a.employee && x.date == a.date) = true
    · rw [if_pos hany]
      exact Nat.le_trans (length_filter_replace_le hqa l) (h emp d)
    · rw [if_neg hany, List.filter_append]
      have : ([a].filter (fun x => x.employee == emp && x.date == d)).length = 0 := by
        simp [List.filter, hqa]
      rw [List.length_append, this]
      simpa using h emp d

/-- `markedRecord` is keyed by the employee's primary key and the local date
of the timestamp. -/
theorem markedRecord_key (db : DB) (emp : Employee) (action : MarkAction)
    (t : Int) :
    (markedRecord db emp action t).employee = emp.id ∧
    (markedRecord db emp action t).date = localDate t := by
  unfold markedRecord
  cases hf : findAtt db.attendances emp.id (localDate t) with
  | none => cases action <;> simp [hf, Attendance.saveRecord]
  | some a =>
    have hk := findAtt_key _ _ _ _ hf
    cases action <;> simp [hf, Attendance.saveRecord, hk.1, hk.2]

/-- An `IN` mark always stores the given timestamp as `clock_in`. -/
theorem markedRecord_clock_in (db : DB) (emp : Employee) (t : Int) :
    (markedRecord db emp MarkAction.IN t).clock_in = some t := by
  unfold markedRecord
  cases hf : findAtt db.attendances emp.id (localDate t) <;>
    simp [hf, Attendance.saveRecord]

/-- Evaluation of `mark_attendance` when the employee exists. -/
theorem mark_attendance_eq (db : DB) (eid : String) (emp : Employee)
    (action : MarkAction) (t : Int)
    (hemp : db.employees.find? (fun e => e.employee_id == eid) = some emp) :
    mark_attendance db eid action t =
      ({ db with attendances :=
          saveAttendance db.attendances (markedRecord db emp action t) },
       true) := by
  unfold mark_attendance
  rw [hemp]

/-- C5: every mark-attendance call upserts exactly one record for
`(employee, local date)`; two successive `IN` calls on the same date leave
exactly one record whose `clock_in` is the second timestamp (repeated `IN`
overwrites, no already-clocked-in guard). -/
theorem mark_attendance_upsert (db : DB) (eid : String) (emp : Employee)
    (t1 t2 : Int)
    (hemp : db.employees.find? (fun e => e.employee_id == eid) = some emp)
    (huniq : uniqueAttKeys db.attendances)
    (hday : localDate t1 = localDate t2) :
    (∀ action t, countKey ((mark_attendance db eid action t).1).attendances
        emp.id (localDate t) = 1) ∧
    countKey ((mark_attendance (mark_attendance db eid .IN t1).1 eid
        .IN t2).1).attendances emp.id (localDate t1) = 1 ∧
    ∃ r, findAtt ((mark_attendance (mark_attendance db eid .IN t1).1 eid
          .IN t2).1).attendances emp.id (localDate t1) = some r ∧
      r.clock_in = some t2 := by
  have hone : ∀ action t,
      countKey ((mark_attendance db eid action t).1).attendances
        emp.id (localDate t) = 1 := by
    intro action t
    rw [mark_attendance_eq db eid emp action t hemp]
    have hk := markedRecord_key db emp action t
    rw [← hk.1, ← hk.2]
    exact countKey_save_self _ _ (huniq _ _)
  have hdb1 : (mark_attendance db eid .IN t1).1 =
      { db with attendances :=
          saveAttendance db.attendances (markedRecord db emp .IN t1) } := by
    rw [mark_attendance_eq db eid emp .IN t1 hemp]
  have hemp1 : ((mark_attendance db eid .IN t1).1).employees.find?
      (fun e => e.employee_id == eid) = some emp := by
    rw [hdb1]
    exact hemp
  have huniq1 : uniqueAttKeys ((mark_attendance db eid .IN t1).1).attendances := by
    rw [hdb1]
    exact uniqueAttKeys_save _ _ huniq
  have hk2 := markedRecord_key (mark_attendance db eid .IN t1).1 emp .IN t2
  refine ⟨hone, ?_, ?_⟩
  · rw [mark_attendance_eq _ eid emp .IN t2 hemp1, hday, ← hk2.1, ← hk2.2]
    exact countKey_save_self _ _ (huniq1 _ _)
  · refine ⟨markedRecord (mark_attendance db eid .IN t1).1 emp .IN t2, ?_,
      markedRecord_clock_in _ emp t2⟩
    rw [mark_attendance_eq _ eid emp .IN t2 hemp1, hday, ← hk2.1, ← hk2.2]
    exact findAtt_saveAttendance _ _

/-- Witness for C5: in `dbW` (no attendance rows yet), marking EMP1 `IN` at
`t = 100` and again at `t = 200` (same IST day) leaves one row whose
`clock_in` is 200. -/
theorem mark_attendance_upsert_witness :
    countKey ((mark_attendance (mark_attendance dbW "EMP1" .IN 100).1 "EMP1"
        .IN 200).1).attendances empAliceW.id (localDate 100) = 1 ∧
    ∃ r, findAtt ((mark_attendance (mark_attendance dbW "EMP1" .IN 100).1
          "EMP1" .IN 200).1).attendances empAliceW.id (localDate 100) = some r ∧
      r.clock_in = some 200 :=
  (mark_attendance_upsert dbW "EMP1" empAliceW 100 200 (by decide)
    (fun emp d => by simp [countKey, dbW]) (by decide)).2

/-! ## C3, C6, C8: monthly report -/

/-- Every key retained by `distinctKeys` comes from the input list. -/
theorem distinctKeys_aux_mem (l acc : List AggKey) :
    ∀ k ∈ l.foldl (fun acc k => if acc.contains k then acc else acc ++ [k]) acc,
      k ∈ acc ∨ k ∈ l := by
  induction l generalizing acc with
  | nil =>
    intro k hk
    exact Or.inl hk
  | cons x xs ih =>
    intro k hk
    rw [List.foldl_cons] at hk
    rcases ih (if acc.contains x then acc else acc ++ [x]) k hk with hacc | hxs
    · by_cases hc : acc.contains x = true
      · rw [if_pos hc] at hacc
        exact Or.inl hacc
      · rw [if_neg hc] at hacc
        rcases List.mem_append.mp hacc with h1 | h2
        · exact Or.inl h1
        · exact Or.inr (List.mem_cons.mpr (Or.inl (List.mem_singleton.mp h2)))
    · exact Or.inr (List.mem_cons_of_mem _ hxs)

/-- Membership form of `distinctKeys_aux_mem`. -/
theorem distinctKeys_mem (l : List AggKey) : ∀ k ∈ distinctKeys l, k ∈ l := by
  intro k hk
  rcases distinctKeys_aux_mem l [] k hk with h | h
  · cases h
  · exact h

/-- A constant key list deduplicates to at most one key. -/
theorem distinctKeys_const_aux (k0 : AggKey) :
    ∀ (l acc : List AggKey), (∀ k ∈ l, k = k0) → acc.length ≤ 1 →
      (∀ k ∈ acc, k = k0) →
      (l.foldl (fun acc k => if acc.contains k then acc
        else acc ++ [k]) acc).length ≤ 1 := by
  intro l
  induction l with
  | nil =>
    intro acc _ hlen _
    simpa using hlen
  | cons x xs ih =>
    intro acc hl hlen hacc
    rw [List.foldl_cons]
    have hx : x = k0 := hl x (List.mem_cons_self _ _)
    by_cases hc : acc.contains x = true
    · rw [if_pos hc]
      exact ih acc (fun k hk => hl k (List.mem_cons_of_mem _ hk)) hlen hacc
    · rw [if_neg hc]
      have haccnil : acc = [] := by
        cases acc with
        | nil => rfl
        | cons a as =>
          exfalso
          apply hc
          rw [List.contains_eq_any_beq]
          refine List.any_eq_true.mpr ⟨a, List.mem_cons_self _ _, ?_⟩
          rw [hx, hacc a (List.mem_cons_self _ _)]
          simp
      subst haccnil
      refine ih [x] (fun k hk => hl k (List.mem_cons_of_mem _ hk)) (by simp) ?_
      intro k hk
      rw [List.mem_singleton.mp hk]
      exact hx

/-- `distinctKeys` of a constant list has length at most one. -/
theorem distinctKeys_const (l : List AggKey) (k0 : AggKey)
    (h : ∀ k ∈ l, k = k0) : (distinctKeys l).length ≤ 1 :=
  distinctKeys_const_aux k0 l [] h (by simp) (by simp)

/-- Primary-key lookup in a table with distinct primary keys finds the member
row itself. -/
theorem find?_employee_id_of_nodup (l : List Employee)
    (hnd : (l.map Employee.id).Nodup) (emp : Employee) (hmem : emp ∈ l) :
    l.find? (fun e => e.id == emp.id) = some emp := by
  induction l with
  | nil => cases hmem
  | cons x xs ih =>
    rw [List.map_cons, List.nodup_cons] at hnd
    rcases List.mem_cons.mp hmem with rfl | hm
    · exact List.find?_cons_of_pos _ (by simp)
    · have hne : ¬(x.id == emp.id) = true := by
        intro hxid
        rw [beq_iff_eq] at hxid
        exact hnd.1 (hxid ▸ List.mem_map.mpr ⟨emp, hm, rfl⟩)
      rw [@List.find?_cons_of_neg Employee (fun e => e.id == emp.id) x xs hne]
      exact ih hnd.2 hm

/-- The grouping key of a row depends on the row only through its employee
foreign key. -/
theorem recordKey_eq_empAggKey (db : DB) (a : Attendance) :
    recordKey db a = empAggKey db a.employee := rfl

/-- The emp_id column of a group key, with distinct employee primary keys. -/
theorem empAggKey_emp_id (db : DB) (emp : Employee)
    (hnd : (db.employees.map Employee.id).Nodup) (hmem : emp ∈ db.employees) :
    (empAggKey db emp.id).emp_id = emp.employee_id := by
  unfold empAggKey recordKey
  rw [find?_employee_id_of_nodup db.employees hnd emp hmem]
  rfl

/-- The aggregation orders its rows by `emp_id` ascending. -/
theorem monthlyAgg_sorted (db : DB) (recs : List Attendance) :
    List.Sorted (fun r1 r2 : ReportRow => r1.employee_id ≤ r2.employee_id)
      (monthlyAgg db recs) := by
  unfold monthlyAgg
  have hs := @List.sorted_mergeSort AggKey
    (fun k1 k2 => decide (k1.emp_id ≤ k2.emp_id))
    (fun a b c h1 h2 => by
      simp only [decide_eq_true_eq] at *
      exact le_trans h1 h2)
    (fun a b => by
      simp only [Bool.or_eq_true, decide_eq_true_eq]
      exact le_total a.emp_id b.emp_id)
    (distinctKeys (recs.map (recordKey db)))
  refine List.pairwise_map.mpr (hs.imp ?_)
  intro a b h
  exact of_decide_eq_true h

/-- Each aggregated row carries the formatted hours string of its own total
seconds, the group's summed `worked_seconds`, and the group's count of rows
with a non-null `clock_in`. -/
theorem monthlyAgg_row_fields (db : DB) (recs : List Attendance)
    (row : ReportRow) (hrow : row ∈ monthlyAgg db recs) :
    row.total_time = formatHours row.total_seconds ∧
    row.total_seconds = ((recs.filter (fun a => recordKey db a ==
      AggKey.mk row.employee_id row.name row.department)).map
      Attendance.worked_seconds).sum ∧
    row.days_present = ((recs.filter (fun a => recordKey db a ==
      AggKey.mk row.employee_id row.name row.department)).filter
      (fun a => a.clock_in.isSome)).length := by
  unfold monthlyAgg at hrow
  obtain ⟨k, _, rfl⟩ := List.mem_map.mp hrow
  cases k with
  | mk e n d => exact ⟨rfl, rfl, rfl⟩

/-- For a non-staff viewer the department parameter is ignored by the
queryset narrowing. -/
theorem visibleAttendance_nonstaff_dept (db : DB) (viewer : User)
    (year month : Nat) (d1 d2 : String) (hstaff : viewer.is_staff = false) :
    visibleAttendance db viewer year month d1 =
      visibleAttendance db viewer year month d2 := by
  unfold visibleAttendance
  rw [hstaff]
  cases employeeOfUser db viewer <;> simp

/-- For a non-staff viewer the visible queryset is their own employee's
rows. -/
theorem visibleAttendance_nonstaff_own (db : DB) (viewer : User)
    (year month : Nat) (department : String) (l : List Attendance)
    (hstaff : viewer.is_staff = false)
    (hl : visibleAttendance db viewer year month department = .ok l) :
    ∃ emp, employeeOfUser db viewer = some emp ∧ ∀ a ∈ l, a.employee = emp.id := by
  unfold visibleAttendance at hl
  rw [hstaff] at hl
  cases hfind : employeeOfUser db viewer with
  | none =>
    rw [hfind] at hl
    simp at hl
  | some emp =>
    rw [hfind] at hl
    simp only [Bool.false_eq_true, if_false, Bool.and_false] at hl
    injection hl with h
    subst h
    refine ⟨emp, rfl, ?_⟩
    intro a ha
    have := (List.mem_filter.mp ha).2
    simpa using this

/-- C3: a non-staff monthly report is restricted to the viewer's own
employee's records before aggregation, the requested department filter is
ignored, and the resulting row set contains at most the viewer's own row. -/
theorem monthly_report_nonstaff_scope (db : DB) (viewer : User)
    (year month : Nat) (department : String)
    (hstaff : viewer.is_staff = false)
    (hids : (db.employees.map Employee.id).Nodup) :
    (visibleAttendance db viewer year month department =
      visibleAttendance db viewer year month "") ∧
    (∀ l, visibleAttendance db viewer year month department = .ok l →
      ∃ emp, employeeOfUser db viewer = some emp ∧
        ∀ a ∈ l, a.employee = emp.id) ∧
    (∀ ctx, monthly_report db viewer year month department = .ok ctx →
      ctx.rows.length ≤ 1 ∧
      ∃ emp, employeeOfUser db viewer = some emp ∧
        ∀ row ∈ ctx.rows, row.employee_id = emp.employee_id) := by
  refine ⟨visibleAttendance_nonstaff_dept db viewer year month department ""
    hstaff, ?_, ?_⟩
  · intro l hl
    exact visibleAttendance_nonstaff_own db viewer year month department l
      hstaff hl
  · intro ctx hctx
    unfold monthly_report at hctx
    cases hv : visibleAttendance db viewer year month department with
    | error e =>
      rw [hv] at hctx
      cases hctx
    | ok l =>
      rw [hv] at hctx
      injection hctx with h
      subst h
      obtain ⟨emp, hemp, hall⟩ := visibleAttendance_nonstaff_own db viewer
        year month department l hstaff hv
      have hconstkeys : ∀ k ∈ l.map (recordKey db), k = empAggKey db emp.id := by
        intro k hk
        obtain ⟨a, ha, rfl⟩ := List.mem_map.mp hk
        rw [recordKey_eq_empAggKey, hall a ha]
      constructor
      · show (monthlyAgg db l).length ≤ 1
        unfold monthlyAgg
        rw [List.length_map,
          (List.mergeSort_perm (distinctKeys (l.map (recordKey db))) _).length_eq]
        exact distinctKeys_const _ _ hconstkeys
      · refine ⟨emp, hemp, ?_⟩
        intro row hrow
        show row.employee_id = emp.employee_id
        unfold monthlyAgg at hrow
        obtain ⟨k, hk, rfl⟩ := List.mem_map.mp hrow
        have hk2 : k ∈ distinctKeys (l.map (recordKey db)) :=
          (List.mergeSort_perm _ _).mem_iff.mp hk
        have hk3 := distinctKeys_mem _ k hk2
        have hk4 := hconstkeys k hk3
        show k.emp_id = emp.employee_id
        rw [hk4]
        exact empAggKey_emp_id db emp hids
          (List.mem_of_find?_eq_some hemp)

/-- Witness for C3: Alice (non-staff, department IT) requesting the March
2024 report with a department=HR filter gets the same queryset as with no
filter, and her report has at most one row, her own. -/
theorem monthly_report_nonstaff_scope_witness :
    visibleAttendance dbMarchW aliceW 2024 3 "HR" =
      visibleAttendance dbMarchW aliceW 2024 3 "" ∧
    (∀ ctx, monthly_report dbMarchW aliceW 2024 3 "HR" = .ok ctx →
      ctx.rows.length ≤ 1 ∧
      ∃ emp, employeeOfUser dbMarchW aliceW = some emp ∧
        ∀ row ∈ ctx.rows, row.employee_id = emp.employee_id) := by
  have h := monthly_report_nonstaff_scope dbMarchW aliceW 2024 3 "HR" rfl
    (by decide)
  exact ⟨h.1, h.2.2⟩

/-- C6: the overall average attendance equals
`total_days_present / (employee_count * working_days) * 100` whenever the
employee count is positive, and the zero-employee case is guarded to yield
0% with no division. -/
theorem monthly_report_average (db : DB) (viewer : User) (year month : Nat)
    (department : String) (ctx : ReportContext)
    (hok : monthly_report db viewer year month department = .ok ctx) :
    ctx.working_days = monthLength year month ∧
    ctx.total_employees = ctx.rows.length ∧
    ctx.total_present_days = (ctx.rows.map ReportRow.days_present).sum ∧
    (0 < ctx.total_employees →
      ctx.average_attendance = (ctx.total_present_days : ℚ) /
        ((ctx.total_employees : ℚ) * (ctx.working_days : ℚ)) * 100) ∧
    (ctx.total_employees = 0 → ctx.average_attendance = 0) := by
  unfold monthly_report at hok
  cases hv : visibleAttendance db viewer year month department with
  | error e =>
    rw [hv] at hok
    cases hok
  | ok att_qs =>
    rw [hv] at hok
    injection hok with h
    subst h
    refine ⟨rfl, rfl, rfl, ?_, ?_⟩
    · intro hpos
      show (if 0 < (monthlyAgg db att_qs).length then _ else _) = _
      rw [if_pos hpos]
    · intro hzero
      have hz : (monthlyAgg db att_qs).length = 0 := hzero
      show (if 0 < (monthlyAgg db att_qs).length then _ else _) = (0 : ℚ)
      rw [hz]
      simp

unseal List.mergeSort in
/-- Witness for C6: the empty March 2024 report over `dbW` has zero
employees and a guarded 0% average. -/
theorem monthly_report_average_witness :
    monthly_report dbW bobW 2024 3 "" = Except.ok ctxEmptyW ∧
    ctxEmptyW.total_employees = 0 ∧ ctxEmptyW.average_attendance = 0 := by
  have h := monthly_report_average dbW bobW 2024 3 "" ctxEmptyW rfl
  exact ⟨rfl, rfl, h.2.2.2.2 rfl⟩

/-- C8: the report output is ordered by employee identifier ascending and
each row carries the employee id, name, department, the count of the month's
visible records with non-null `clock_in`, the `"{h}h {m}m"` string derived
from the summed seconds, and the raw total seconds. -/
theorem monthly_report_rows_spec (db : DB) (viewer : User) (year month : Nat)
    (department : String) (ctx : ReportContext)
    (hok : monthly_report db viewer year month department = .ok ctx) :
    List.Sorted (fun r1 r2 : ReportRow => r1.employee_id ≤ r2.employee_id)
      ctx.rows ∧
    ∃ recs, visibleAttendance db viewer year month department = .ok recs ∧
      ctx.rows = monthlyAgg db recs ∧
      ∀ row ∈ ctx.rows,
        row.total_time = formatHours row.total_seconds ∧
        row.total_seconds = ((recs.filter (fun a => recordKey db a ==
          AggKey.mk row.employee_id row.name row.department)).map
          Attendance.worked_seconds).sum ∧
        row.days_present = ((recs.filter (fun a => recordKey db a ==
          AggKey.mk row.employee_id row.name row.department)).filter
          (fun a => a.clock_in.isSome)).length := by
  unfold monthly_report at hok
  cases hv : visibleAttendance db viewer year month department with
  | error e =>
    rw [hv] at hok
    cases hok
  | ok recs =>
    rw [hv] at hok
    injection hok with h
    subst h
    refine ⟨monthlyAgg_sorted db recs, recs, rfl, rfl, ?_⟩
    intro row hrow
    exact monthlyAgg_row_fields db recs row hrow

unseal List.merge List.mergeSort in
/-- Witness for C8: the two-employee March 2024 report over `dbMarch2W` is
sorted by employee id and each row's derived fields agree with its group. -/
theorem monthly_report_rows_spec_witness :
    ∃ ctx, monthly_report dbMarch2W bobW 2024 3 "" = Except.ok ctx ∧
      List.Sorted (fun r1 r2 : ReportRow => r1.employee_id ≤ r2.employee_id)
        ctx.rows ∧
      ∀ row ∈ ctx.rows, row.total_time = formatHours row.total_seconds := by
  have hisok : (monthly_report dbMarch2W bobW 2024 3 "").isOk = true := rfl
  cases hv : monthly_report dbMarch2W bobW 2024 3 "" with
  | error e =>
    rw [hv] at hisok
    cases hisok
  | ok ctx =>
    have h := monthly_report_rows_spec dbMarch2W bobW 2024 3 "" ctx hv
    obtain ⟨recs, _, _, hfields⟩ := h.2
    exact ⟨ctx, rfl, h.1, fun row hrow => (hfields row hrow).1⟩

end AttendanceTracker
